import Mathlib

/-!
Verification of the looptrack multi-replica synchronization core.

The development shallowly embeds two source modules:

* `src/cloudSync.js` — the Replica Exchange Engine (`syncToCloud`,
  `syncFromCloud`, `syncWithCloud`).  A filesystem directory is modelled as
  an association list from file name to file content (`Dir`); a possibly
  non-existent directory is `Option Dir` (`none` = `fs.existsSync` is false).
  `fs.readdirSync` enumerates the names in list order, `fs.copyFileSync`
  is an insert-or-overwrite on the target directory, and `JSON.parse` —
  a platform builtin whose result the code discards (it is used only to
  validate a peer file before copying) — is modelled by an arbitrary
  validity predicate `parseOk : String → Bool` passed as a parameter.
  A `readFileSync`/`JSON.parse` failure is caught by the surrounding
  `try`/`catch` and skips the file.

* `src/sync.js` — the Local Record Store (`loadExistingData` and the merge
  loop of `sync`).  A JavaScript object used as a map is modelled as an
  association list with unique keys, where assignment `obj[k] = v` replaces
  the value at an existing key in place (preserving key order) and appends
  a fresh key at the end (`setKey`); `Object.keys(obj).length` is the list
  length.  Raw ccusage session objects carry the four fields the merge
  inspects plus an opaque remainder `rest : α` copied verbatim by the
  spread `{...session, ...}`.  `new Date().toISOString()` is modelled by a
  single merge-time parameter `now`.  JavaScript string falsiness
  (`undefined`/`null`/`""`) is modelled on `Option String` values.
-/

namespace LoopTrack

/-- File name of a machine's record file: `usage-${machineId}.json`. -/
def usageFile (machineId : String) : String :=
  "usage-" ++ machineId ++ ".json"

/-- A filesystem directory: file name ↦ file content (byte string). -/
abbrev Dir := List (String × String)

/-- Lookup in an association list (JS property read / file read). -/
def lookupKey {β : Type} : List (String × β) → String → Option β
  | [], _ => none
  | (a, b) :: rest, k => if a = k then some b else lookupKey rest k

/-- JS object assignment / file overwrite: replace the value at an existing
key in place, otherwise append the new key at the end. -/
def setKey {β : Type} : List (String × β) → String → β → List (String × β)
  | [], k, v => [(k, v)]
  | (a, b) :: rest, k, v =>
    if a = k then (k, v) :: rest else (a, b) :: setKey rest k v

/-- JS `String.prototype.startsWith`, on the character data. -/
def strStartsWith (s pre : String) : Bool :=
  List.isPrefixOf pre.data s.data

/-- JS `String.prototype.endsWith`, on the character data. -/
def strEndsWith (s post : String) : Bool :=
  List.isSuffixOf post.data s.data

/-- The readdir filter of `syncFromCloud`:
`f.startsWith('usage-') && f.endsWith('.json')`. -/
def isUsageFileName (f : String) : Bool :=
  strStartsWith f "usage-" && strEndsWith f ".json"

/-- `syncToCloud(localDataDir, cloudDir, machineId)` (src/cloudSync.js:10-23).
Creates the cloud directory if absent, then copies the local machine file to
the cloud verbatim when it exists.  Returns the cloud directory (which exists
afterwards in every case, hence a plain `Dir`). -/
def syncToCloud (localDataDir cloudDir : Option Dir) (machineId : String) : Dir :=
  let cloud := cloudDir.getD []
  match lookupKey (localDataDir.getD []) (usageFile machineId) with
  | some content => setKey cloud (usageFile machineId) content
  | none => cloud

/-- The `for (const file of files)` loop of `syncFromCloud`
(src/cloudSync.js:44-62): skip our own machine's file, validate each other
file's content with `JSON.parse` and copy it to the local directory; a read
or parse failure is caught and the file skipped. -/
def pullLoop (parseOk : String → Bool) (machineId : String) (cloud : Dir) :
    List String → Dir → Dir
  | [], localDir => localDir
  | f :: rest, localDir =>
    if f = usageFile machineId then
      pullLoop parseOk machineId cloud rest localDir
    else
      match lookupKey cloud f with
      | some content =>
        if parseOk content then
          pullLoop parseOk machineId cloud rest (setKey localDir f content)
        else
          pullLoop parseOk machineId cloud rest localDir
      | none => pullLoop parseOk machineId cloud rest localDir

/-- `syncFromCloud(localDataDir, cloudDir, machineId)` (src/cloudSync.js:31-63).
No-op when the cloud directory does not exist; otherwise creates the local
directory if needed, lists the `usage-*.json` files of the cloud directory and
runs the pull loop over them. -/
def syncFromCloud (parseOk : String → Bool) (localDataDir cloudDir : Option Dir)
    (machineId : String) : Option Dir :=
  match cloudDir with
  | none => localDataDir
  | some cloud =>
    let files := (cloud.map Prod.fst).filter isUsageFileName
    some (pullLoop parseOk machineId cloud files (localDataDir.getD []))

/-- `syncWithCloud(localDataDir, cloudDir, machineId)` (src/cloudSync.js:71-76):
push first, then pull; returns (local directory, cloud directory) afterwards. -/
def syncWithCloud (parseOk : String → Bool) (localDataDir cloudDir : Option Dir)
    (machineId : String) : Option Dir × Dir :=
  let cloud2 := syncToCloud localDataDir cloudDir machineId
  let local2 := syncFromCloud parseOk localDataDir (some cloud2) machineId
  (local2, cloud2)

/-- File lookup through a possibly non-existent directory. -/
def optLookup (d : Option Dir) (f : String) : Option String :=
  match d with
  | none => none
  | some l => lookupKey l f

/-- A raw session object as returned by ccusage (src/sync.js).  The merge
loop inspects only `sessionId`, `id`, `projectPath` and `startTime`; every
other field is copied verbatim by the spread `{...session, ...}` and is
modelled by the opaque payload `rest : α`.  A JS string field that may be
`undefined`/`null` is an `Option String`; `some ""` is falsy like `none`. -/
structure RawSession (α : Type) where
  sessionId : Option String
  id : Option String
  projectPath : Option String
  startTime : Option String
  rest : α
deriving DecidableEq

/-- A stored session record, `{...session, projectPath, projectName,
syncedAt}` (src/sync.js:184-189): the raw fields with `projectPath`
overridden by the derived path, plus `projectName` and `syncedAt`. -/
structure StoredSession (α : Type) where
  sessionId : Option String
  id : Option String
  projectPath : Option String
  startTime : Option String
  rest : α
  projectName : String
  syncedAt : String
deriving DecidableEq

/-- One entry of the `syncs` append log (src/sync.js:196-201). -/
structure SyncEvent where
  timestamp : String
  newSessions : Nat
  updatedSessions : Nat
  totalSessions : Nat
deriving DecidableEq

/-- The per-machine durable record set
`{ sessions, syncs, lastSync }` (src/sync.js:192-204); `lastSync = none`
models an absent field (as in the empty set `{ sessions: {}, syncs: [] }`). -/
structure RecordSet (α : Type) where
  sessions : List (String × StoredSession α)
  syncs : List SyncEvent
  lastSync : Option String
deriving DecidableEq

/-- The empty record set `{ sessions: {}, syncs: [] }` (src/sync.js:75). -/
def emptyRecordSet {α : Type} : RecordSet α :=
  { sessions := [], syncs := [], lastSync := none }

/-- JS `a || b` for a possibly-absent string `a`: `""`, `null` and
`undefined` fall through to `b`. -/
def jsOrElse : Option String → String → String
  | some s, b => if s = "" then b else s
  | none, b => b

/-- JS template-literal interpolation of a possibly-absent string:
`undefined` prints as `"undefined"`. -/
def jsInterp : Option String → String
  | some s => s
  | none => "undefined"

/-- The merge key (src/sync.js:173):
`session.sessionId || session.id || `${session.projectPath}-${session.startTime}``. -/
def computeId {α : Type} (s : RawSession α) : String :=
  jsOrElse s.sessionId
    (jsOrElse s.id (jsInterp s.projectPath ++ "-" ++ jsInterp s.startTime))

/-- `decodeProjectPath(sessionId)` (src/sync.js:55-58): `null` unless the id
is a nonempty string starting with `-`; otherwise every `-` (including the
leading one) becomes `/`. -/
def decodeProjectPath : Option String → Option String
  | none => none
  | some sid =>
    if sid = "" then none
    else if strStartsWith sid "-" then
      some (String.mk (sid.data.map fun c => if c = '-' then '/' else c))
    else none

/-- `getProjectName(projectPath)` (src/sync.js:61-64):
`projectPath.split('/').pop() || projectPath`, with `'Unknown'` for an
absent path. -/
def getProjectName : Option String → String
  | none => "Unknown"
  | some p =>
    if p = "" then "Unknown"
    else
      let lastPart := (p.splitOn "/").getLastD ""
      if lastPart = "" then p else lastPart

/-- The derived project path (src/sync.js:180-182):
`(session.projectPath && session.projectPath !== 'Unknown Project')
  ? session.projectPath : decodeProjectPath(session.sessionId)`. -/
def deriveProjectPath (pp sid : Option String) : Option String :=
  match pp with
  | some p =>
    if p = "" ∨ p = "Unknown Project" then decodeProjectPath sid else some p
  | none => decodeProjectPath sid

/-- The record stored for one observation (src/sync.js:184-189). -/
def store {α : Type} (now : String) (s : RawSession α) : StoredSession α :=
  let pp := deriveProjectPath s.projectPath s.sessionId
  { sessionId := s.sessionId, id := s.id, projectPath := pp,
    startTime := s.startTime, rest := s.rest,
    projectName := getProjectName pp, syncedAt := now }

/-- The merge loop of `sync` (src/sync.js:172-190): for each incoming
session, compute its id, count it as new when the id is absent from the
in-progress map (`!sessions[id]`; stored values are objects, hence truthy)
and as updated otherwise, then overwrite `sessions[id]` with the freshly
stored record. -/
def mergeLoop {α : Type} (now : String) :
    List (RawSession α) → List (String × StoredSession α) → Nat → Nat →
    List (String × StoredSession α) × Nat × Nat
  | [], sessions, newCount, updatedCount => (sessions, newCount, updatedCount)
  | s :: restObs, sessions, newCount, updatedCount =>
    let i := computeId s
    let counts :=
      if (lookupKey sessions i).isNone then (newCount + 1, updatedCount)
      else (newCount, updatedCount + 1)
    mergeLoop now restObs (setKey sessions i (store now s)) counts.1 counts.2

/-- The merge-and-log portion of `sync` (src/sync.js:167-204), applied to an
already-loaded record set and an incoming batch: merge the sessions, append
one sync event with the counts and `Object.keys(sessions).length`, and stamp
`lastSync`.  The several `new Date().toISOString()` calls of one cycle are
modelled by the single merge time `now`. -/
def sync {α : Type} (existing : RecordSet α) (incoming : List (RawSession α))
    (now : String) : RecordSet α :=
  let r := mergeLoop now incoming existing.sessions 0 0
  { sessions := r.1,
    syncs := existing.syncs ++
      [{ timestamp := now, newSessions := r.2.1, updatedSessions := r.2.2,
         totalSessions := r.1.length }],
    lastSync := some now }

/-- `loadExistingData(machineId)` (src/sync.js:66-76): read and parse the
machine's data file; a `null` machine id, a missing file, or a read/parse
failure (caught by the `try`) all yield the empty record set.  `JSON.parse`
plus the implicit shape expectation is the platform-level parameter
`parse`. -/
def loadExistingData {α : Type} (parse : String → Option (RecordSet α))
    (dataDir : Option Dir) (machineId : Option String) : RecordSet α :=
  match machineId with
  | none => emptyRecordSet
  | some mid =>
    match lookupKey (dataDir.getD []) (usageFile mid) with
    | none => emptyRecordSet
    | some content =>
      match parse content with
      | some rs => rs
      | none => emptyRecordSet

/-- The data-source branch of `sync` (src/sync.js:160-165 and 206):
`runCcusage()` returning `null`, or a result without a `sessions` field, is
`none`; in that case the function returns the existing set unchanged and
saves nothing, otherwise it merges and saves the merged set.  The second
component is what `saveData` persists (`none` = no write). -/
def syncCycle {α : Type} (existing : RecordSet α)
    (ccusageData : Option (List (RawSession α))) (now : String) :
    RecordSet α × Option (RecordSet α) :=
  match ccusageData with
  | none => (existing, none)
  | some incoming =>
    let d := sync existing incoming now
    (d, some d)

/-- The session-map component of the merge loop in isolation (the counters
of `mergeLoop` do not influence it); used to reason about `sync`. -/
def applyAll {α : Type} (now : String) :
    List (RawSession α) → List (String × StoredSession α) →
    List (String × StoredSession α)
  | [], m => m
  | s :: restObs, m =>
    applyAll now restObs (setKey m (computeId s) (store now s))

/-- Replace a stored record's `syncedAt` stamp. -/
def retime {α : Type} (v : StoredSession α) (t : String) : StoredSession α :=
  { v with syncedAt := t }

/-- Restamp every record of a session map to merge time `t`. -/
def retimeMap {α : Type} (m : List (String × StoredSession α)) (t : String) :
    List (String × StoredSession α) :=
  m.map fun kv => (kv.1, retime kv.2 t)

/-- Two association lists with the same key sequence whose values agree at
every key outside `S` (positionally).  The workhorse relation for the
idempotent-merge proof. -/
def AgreeOff {β : Type} (S : String → Prop) (M N : List (String × β)) : Prop :=
  List.Forall₂ (fun p q => p.1 = q.1 ∧ (¬ S p.1 → p.2 = q.2)) M N

/-! ### Association-list lemmas -/

theorem lookupKey_setKey_self {β : Type} (m : List (String × β)) (k : String)
    (v : β) : lookupKey (setKey m k v) k = some v := by
  induction m with
  | nil => simp [setKey, lookupKey]
  | cons p rest ih =>
    by_cases h : p.1 = k
    · simp [setKey, h, lookupKey]
    · simp [setKey, h, lookupKey, ih]

theorem lookupKey_setKey_ne {β : Type} (m : List (String × β)) {k x : String}
    (v : β) (h : k ≠ x) : lookupKey (setKey m k v) x = lookupKey m x := by
  induction m with
  | nil => simp [setKey, lookupKey, h]
  | cons p rest ih =>
    by_cases hp : p.1 = k
    · simp [setKey, hp, lookupKey, h]
    · simp [setKey, hp, lookupKey, ih]

theorem lookupKey_eq_some_of_mem_nodup {β : Type}
    {m : List (String × β)} {k : String} {v : β}
    (hmem : (k, v) ∈ m) (hnd : (m.map Prod.fst).Nodup) :
    lookupKey m k = some v := by
  induction m with
  | nil => cases hmem
  | cons p rest ih =>
    simp only [List.map_cons, List.nodup_cons] at hnd
    rcases List.mem_cons.mp hmem with h | h
    · simp [lookupKey, ← h]
    · have hk : p.1 ≠ k := by
        intro he
        exact hnd.1 (he ▸ List.mem_map_of_mem Prod.fst h)
      simp [lookupKey, hk, ih h hnd.2]

/-! ### String lemmas for the `usage-*.json` naming convention -/

theorem isPrefixOf_append_self (l₁ l₂ : List Char) :
    List.isPrefixOf l₁ (l₁ ++ l₂) = true := by
  induction l₁ with
  | nil => simp [List.isPrefixOf]
  | cons a as ih => simp [List.isPrefixOf, ih]

theorem isSuffixOf_append_self (l₁ l₂ : List Char) :
    List.isSuffixOf l₂ (l₁ ++ l₂) = true := by
  simp only [List.isSuffixOf, List.reverse_append]
  exact isPrefixOf_append_self _ _

theorem usageFile_data (m : String) :
    (usageFile m).data = "usage-".data ++ (m.data ++ ".json".data) := by
  simp [usageFile, String.data_append]

theorem strStartsWith_usageFile (m : String) :
    strStartsWith (usageFile m) "usage-" = true := by
  rw [strStartsWith, usageFile_data]
  exact isPrefixOf_append_self _ _

theorem strEndsWith_usageFile (m : String) :
    strEndsWith (usageFile m) ".json" = true := by
  rw [strEndsWith, usageFile_data, ← List.append_assoc]
  exact isSuffixOf_append_self _ _

theorem isUsageFileName_usageFile (m : String) :
    isUsageFileName (usageFile m) = true := by
  simp [isUsageFileName, strStartsWith_usageFile, strEndsWith_usageFile]

theorem usageFile_inj {a b : String} (h : usageFile a = usageFile b) :
    a = b := by
  have hd := congrArg String.data h
  rw [usageFile_data, usageFile_data] at hd
  have h1 := List.append_cancel_left hd
  have h2 := List.append_cancel_right h1
  exact String.ext h2

theorem usageFile_ne {a b : String} (h : a ≠ b) :
    usageFile a ≠ usageFile b := fun he => h (usageFile_inj he)

/-! ### Pull-loop lemmas -/

theorem pullLoop_lookup_own (parseOk : String → Bool) (machineId : String)
    (cloud : Dir) (files : List String) (l : Dir) :
    lookupKey (pullLoop parseOk machineId cloud files l) (usageFile machineId) =
      lookupKey l (usageFile machineId) := by
  induction files generalizing l with
  | nil => rfl
  | cons f rest ih =>
    by_cases hf : f = usageFile machineId
    · simp [pullLoop, hf, ih]
    · simp only [pullLoop, if_neg hf]
      cases hc : lookupKey cloud f with
      | none => exact ih l
      | some c =>
        by_cases hp : parseOk c = true
        · simp only [hp, if_true]
          rw [ih, lookupKey_setKey_ne _ _ hf]
        · simp [hp, ih]

theorem pullLoop_lookup_not_mem (parseOk : String → Bool) (machineId : String)
    (cloud : Dir) {files : List String} {x : String} (hx : x ∉ files) (l : Dir) :
    lookupKey (pullLoop parseOk machineId cloud files l) x = lookupKey l x := by
  induction files generalizing l with
  | nil => rfl
  | cons f rest ih =>
    have hfx : f ≠ x := fun he => hx (he ▸ List.mem_cons_self f rest)
    have hxr : x ∉ rest := fun hr => hx (List.mem_cons_of_mem f hr)
    by_cases hf : f = usageFile machineId
    · simp [pullLoop, hf, ih hxr]
    · simp only [pullLoop, if_neg hf]
      cases hc : lookupKey cloud f with
      | none => exact ih hxr l
      | some c =>
        by_cases hp : parseOk c = true
        · simp only [hp, if_true]
          rw [ih hxr, lookupKey_setKey_ne _ _ hfx]
        · simp [hp, ih hxr]

theorem pullLoop_lookup_write (parseOk : String → Bool) (machineId : String)
    (cloud : Dir) {files : List String} {x : String} {c : String}
    (hnd : files.Nodup) (hmem : x ∈ files) (hx : x ≠ usageFile machineId)
    (hc : lookupKey cloud x = some c) (hp : parseOk c = true) (l : Dir) :
    lookupKey (pullLoop parseOk machineId cloud files l) x = some c := by
  induction files generalizing l with
  | nil => cases hmem
  | cons f rest ih =>
    rw [List.nodup_cons] at hnd
    rcases List.mem_cons.mp hmem with h | h
    · subst h
      simp only [pullLoop, if_neg hx, hc, hp, if_true]
      rw [pullLoop_lookup_not_mem parseOk machineId cloud hnd.1,
        lookupKey_setKey_self]
    · by_cases hf : f = usageFile machineId
      · simp only [pullLoop, if_pos hf]
        exact ih hnd.2 h l
      · simp only [pullLoop, if_neg hf]
        cases lookupKey cloud f with
        | none => exact ih hnd.2 h l
        | some c' =>
          by_cases hp' : parseOk c' = true
          · simp only [hp', if_true]
            exact ih hnd.2 h _
          · simp only [hp', if_false]
            exact ih hnd.2 h l

theorem pullLoop_lookup_skip (parseOk : String → Bool) (machineId : String)
    (cloud : Dir) (files : List String) {x : String} {c : String}
    (hc : lookupKey cloud x = some c) (hp : parseOk c = false) (l : Dir) :
    lookupKey (pullLoop parseOk machineId cloud files l) x = lookupKey l x := by
  induction files generalizing l with
  | nil => rfl
  | cons f rest ih =>
    by_cases hf : f = usageFile machineId
    · simp [pullLoop, hf, ih]
    · simp only [pullLoop, if_neg hf]
      by_cases hfx : f = x
      · subst hfx
        simp [hc, hp, ih]
      · cases lookupKey cloud f with
        | none => exact ih l
        | some c' =>
          by_cases hp' : parseOk c' = true
          · simp only [hp', if_true]
            rw [ih, lookupKey_setKey_ne _ _ hfx]
          · simp [hp', ih]

/-! ### Claim theorems: replica exchange, load, missing source -/

/-- C2.  Unconditional push overwrite: when the local file for `machineId`
exists with content `c`, the push phase makes the shared file for
`machineId` exactly `c` (whatever was there before, no content or timestamp
inspection occurs) and leaves every other shared file unchanged; when no
local file exists, the shared directory's files are unchanged. -/
theorem push_overwrites_unconditionally (localDataDir cloudDir : Option Dir)
    (machineId : String) :
    (∀ c, lookupKey (localDataDir.getD []) (usageFile machineId) = some c →
      lookupKey (syncToCloud localDataDir cloudDir machineId)
          (usageFile machineId) = some c ∧
      ∀ x, x ≠ usageFile machineId →
        lookupKey (syncToCloud localDataDir cloudDir machineId) x =
          lookupKey (cloudDir.getD []) x) ∧
    (lookupKey (localDataDir.getD []) (usageFile machineId) = none →
      syncToCloud localDataDir cloudDir machineId = cloudDir.getD []) := by
  constructor
  · intro c hc
    constructor
    · simp [syncToCloud, hc, lookupKey_setKey_self]
    · intro x hx
      simp only [syncToCloud, hc]
      exact lookupKey_setKey_ne _ _ fun he => hx he.symm
  · intro hc
    simp [syncToCloud, hc]

/-- Witness for C2 at a concrete input: machine `a` pushes content `"L"`
over an older shared copy `"OLD"`, and machine `b`'s shared file survives. -/
theorem push_overwrites_unconditionally_witness :
    lookupKey
        (syncToCloud (some [(usageFile "a", "L")])
          (some [(usageFile "a", "OLD"), (usageFile "b", "B")]) "a")
        (usageFile "a") = some "L" ∧
    lookupKey
        (syncToCloud (some [(usageFile "a", "L")])
          (some [(usageFile "a", "OLD"), (usageFile "b", "B")]) "a")
        (usageFile "b") = some "B" := by
  have h := push_overwrites_unconditionally (some [(usageFile "a", "L")])
    (some [(usageFile "a", "OLD"), (usageFile "b", "B")]) "a"
  have h1 := h.1 "L" (by decide)
  exact ⟨h1.1, by rw [h1.2 (usageFile "b") (by decide)]; decide⟩

/-- C3.  Self-exclusion on pull: the pull phase leaves the local file named
for the calling `machineId` byte-for-byte unchanged, for every local
directory, shared directory and machine id (its write loop skips exactly
that name before any read). -/
theorem pull_never_touches_own_file (parseOk : String → Bool)
    (localDataDir cloudDir : Option Dir) (machineId : String) :
    optLookup (syncFromCloud parseOk localDataDir cloudDir machineId)
        (usageFile machineId) =
      optLookup localDataDir (usageFile machineId) := by
  cases cloudDir with
  | none => rfl
  | some cloud =>
    simp only [syncFromCloud, optLookup]
    rw [pullLoop_lookup_own]
    cases localDataDir <;> rfl

/-- C8.  Load falls back to empty: `loadExistingData` returns the parsed
record set exactly when the machine's file exists and parses, and the empty
record set when the file is absent or its content fails to parse; no case
raises an error. -/
theorem load_falls_back_to_empty {α : Type}
    (parse : String → Option (RecordSet α)) (dataDir : Option Dir)
    (machineId : String) :
    (∀ content rs,
      lookupKey (dataDir.getD []) (usageFile machineId) = some content →
      parse content = some rs →
      loadExistingData parse dataDir (some machineId) = rs) ∧
    (lookupKey (dataDir.getD []) (usageFile machineId) = none →
      loadExistingData parse dataDir (some machineId) = emptyRecordSet) ∧
    (∀ content,
      lookupKey (dataDir.getD []) (usageFile machineId) = some content →
      parse content = none →
      loadExistingData parse dataDir (some machineId) = emptyRecordSet) := by
  refine ⟨fun content rs h1 h2 => ?_, fun h1 => ?_, fun content h1 h2 => ?_⟩ <;>
    simp [loadExistingData, h1, *]

/-- Witness for C8: a present well-formed file is returned, a corrupt file
and a missing file both yield the empty record set. -/
theorem load_falls_back_to_empty_witness :
    loadExistingData (α := Unit)
        (fun s => if s = "good" then
          some { sessions := [], syncs := [], lastSync := some "T" } else none)
        (some [(usageFile "m", "good")]) (some "m") =
      { sessions := [], syncs := [], lastSync := some "T" } ∧
    loadExistingData (α := Unit)
        (fun s => if s = "good" then
          some { sessions := [], syncs := [], lastSync := some "T" } else none)
        (some []) (some "m") = emptyRecordSet ∧
    loadExistingData (α := Unit)
        (fun s => if s = "good" then
          some { sessions := [], syncs := [], lastSync := some "T" } else none)
        (some [(usageFile "m", "bad ")]) (some "m") = emptyRecordSet := by
  refine ⟨?_, ?_, ?_⟩
  · exact (load_falls_back_to_empty _ _ "m").1 "good" _ (by decide) (by decide)
  · exact (load_falls_back_to_empty _ _ "m").2.1 (by decide)
  · exact (load_falls_back_to_empty _ _ "m").2.2 "bad " (by decide) (by decide)

/-- C9 (amended).  When the external observation source is unavailable or
returns no session data, the sync cycle completes without error and returns
the existing record set unchanged, persisting nothing — in particular it
does not append a sync event and does not touch the stored file. -/
theorem missing_source_returns_existing_unchanged {α : Type}
    (existing : RecordSet α) (now : String) :
    syncCycle existing none now = (existing, none) := rfl

/-- Counterexample for C9 as stated: the claim says a missing-source cycle
appends the cycle's sync event exactly as a cycle with zero added records
would.  At the concrete input below, the missing-source cycle appends no
sync event while the zero-record cycle appends one, and the two results
differ. -/
theorem missing_source_appends_no_sync_event :
    (syncCycle (α := Unit) emptyRecordSet none "2025-01-01").1.syncs = [] ∧
    (syncCycle (α := Unit) emptyRecordSet (some []) "2025-01-01").1.syncs =
      [{ timestamp := "2025-01-01", newSessions := 0, updatedSessions := 0,
         totalSessions := 0 }] ∧
    syncCycle (α := Unit) emptyRecordSet none "2025-01-01" ≠
      syncCycle (α := Unit) emptyRecordSet (some []) "2025-01-01" := by
  decide

/-- C6.  Corrupt-peer isolation on pull: in a shared directory (with its
filesystem-unique names) holding a valid record file for peer `B` and a
`usage-*.json`-named file whose content does not parse, the pull phase still
copies `B`'s file to the local directory and leaves the local state for the
malformed name unchanged (in particular it creates no entry for it);
the corrupt file never aborts the loop. -/
theorem corrupt_peer_isolated (parseOk : String → Bool)
    (localDataDir : Option Dir) (cloud : Dir) (machineId B : String)
    {cb f bad : String}
    (hnd : (cloud.map Prod.fst).Nodup)
    (hB : (usageFile B, cb) ∈ cloud) (hBparse : parseOk cb = true)
    (hBne : B ≠ machineId)
    (hf : (f, bad) ∈ cloud) (_hfname : isUsageFileName f = true)
    (hbad : parseOk bad = false) :
    optLookup (syncFromCloud parseOk localDataDir (some cloud) machineId)
        (usageFile B) = some cb ∧
    optLookup (syncFromCloud parseOk localDataDir (some cloud) machineId) f =
      optLookup localDataDir f := by
  constructor
  · simp only [syncFromCloud, optLookup]
    exact pullLoop_lookup_write parseOk machineId cloud
      (List.Nodup.filter _ hnd)
      (List.mem_filter.mpr
        ⟨List.mem_map_of_mem Prod.fst hB, isUsageFileName_usageFile B⟩)
      (usageFile_ne hBne)
      (lookupKey_eq_some_of_mem_nodup hB hnd) hBparse _
  · simp only [syncFromCloud, optLookup]
    rw [pullLoop_lookup_skip parseOk machineId cloud _
      (lookupKey_eq_some_of_mem_nodup hf hnd) hbad]
    cases localDataDir <;> rfl

/-- Witness for C6: peer `b`'s valid file is pulled while the corrupt
`usage-x.json` is skipped, leaving no local entry for it. -/
theorem corrupt_peer_isolated_witness :
    optLookup
        (syncFromCloud (fun s => s == "VALID") (some [])
          (some [(usageFile "b", "VALID"), (usageFile "x", "BAD")]) "a")
        (usageFile "b") = some "VALID" ∧
    optLookup
        (syncFromCloud (fun s => s == "VALID") (some [])
          (some [(usageFile "b", "VALID"), (usageFile "x", "BAD")]) "a")
        (usageFile "x") = optLookup (some []) (usageFile "x") := by
  exact @corrupt_peer_isolated (fun s => s == "VALID") (some [])
    [(usageFile "b", "VALID"), (usageFile "x", "BAD")] "a" "b"
    "VALID" (usageFile "x") "BAD"
    (by decide) (by decide) (by decide) (by decide) (by decide)
    (isUsageFileName_usageFile "x") (by decide)

/-- C1.  Convergence of one exchange cycle: machine `A`'s local directory
holds only its own record file (content `ca`), the shared directory holds
only `B`'s record file (content `cb`, well-formed).  After `A` runs the
combined exchange (push then pull), the shared directory holds both files —
`A`'s byte-equal to its local file and `B`'s unchanged — and `A`'s local
directory holds both files with those same contents. -/
theorem exchange_converges (parseOk : String → Bool) (A B ca cb : String)
    (hAB : A ≠ B) (hcb : parseOk cb = true) :
    lookupKey (syncWithCloud parseOk (some [(usageFile A, ca)])
        (some [(usageFile B, cb)]) A).2 (usageFile A) = some ca ∧
    lookupKey (syncWithCloud parseOk (some [(usageFile A, ca)])
        (some [(usageFile B, cb)]) A).2 (usageFile B) = some cb ∧
    optLookup (syncWithCloud parseOk (some [(usageFile A, ca)])
        (some [(usageFile B, cb)]) A).1 (usageFile A) = some ca ∧
    optLookup (syncWithCloud parseOk (some [(usageFile A, ca)])
        (some [(usageFile B, cb)]) A).1 (usageFile B) = some cb := by
  have hBA : usageFile B ≠ usageFile A := usageFile_ne (Ne.symm hAB)
  have hABf : usageFile A ≠ usageFile B := usageFile_ne hAB
  have h1 : syncToCloud (some [(usageFile A, ca)]) (some [(usageFile B, cb)]) A
      = [(usageFile B, cb), (usageFile A, ca)] := by
    simp [syncToCloud, lookupKey, setKey, hBA]
  have h2 : List.filter isUsageFileName [usageFile B, usageFile A] =
      [usageFile B, usageFile A] := by
    simp [isUsageFileName_usageFile]
  have h3 : pullLoop parseOk A [(usageFile B, cb), (usageFile A, ca)]
      [usageFile B, usageFile A] [(usageFile A, ca)] =
      [(usageFile A, ca), (usageFile B, cb)] := by
    simp [pullLoop, hBA, hABf, lookupKey, hcb, setKey]
  refine ⟨?_, ?_, ?_, ?_⟩ <;>
    simp [syncWithCloud, h1, syncFromCloud, h2, h3, optLookup, lookupKey,
      hBA, hABf]

/-- Witness for C1 at machines `a`, `b` with an always-valid parse. -/
theorem exchange_converges_witness :
    lookupKey (syncWithCloud (fun _ => true) (some [(usageFile "a", "CA")])
        (some [(usageFile "b", "CB")]) "a").2 (usageFile "a") = some "CA" ∧
    lookupKey (syncWithCloud (fun _ => true) (some [(usageFile "a", "CA")])
        (some [(usageFile "b", "CB")]) "a").2 (usageFile "b") = some "CB" ∧
    optLookup (syncWithCloud (fun _ => true) (some [(usageFile "a", "CA")])
        (some [(usageFile "b", "CB")]) "a").1 (usageFile "a") = some "CA" ∧
    optLookup (syncWithCloud (fun _ => true) (some [(usageFile "a", "CA")])
        (some [(usageFile "b", "CB")]) "a").1 (usageFile "b") = some "CB" :=
  exchange_converges (fun _ => true) "a" "b" "CA" "CB" (by decide) rfl

/-! ### Key-structure lemmas for the merge map -/

theorem lookupKey_eq_none_iff {β : Type} {m : List (String × β)} {k : String} :
    lookupKey m k = none ↔ k ∉ m.map Prod.fst := by
  induction m with
  | nil => simp [lookupKey]
  | cons p rest ih =>
    simp only [lookupKey, List.map_cons, List.mem_cons]
    by_cases h : p.1 = k
    · simp [h]
    · have h' : ¬ k = p.1 := fun he => h he.symm
      simp [h, h', ih]

theorem keys_setKey_of_mem {β : Type} {m : List (String × β)} {k : String}
    (v : β) (h : k ∈ m.map Prod.fst) :
    (setKey m k v).map Prod.fst = m.map Prod.fst := by
  induction m with
  | nil => simp at h
  | cons p rest ih =>
    simp only [List.map_cons, List.mem_cons] at h
    by_cases hp : p.1 = k
    · simp [setKey, hp]
    · rcases h with h | h
      · exact absurd h.symm hp
      · simp [setKey, hp, ih h]

theorem keys_setKey_of_not_mem {β : Type} {m : List (String × β)} {k : String}
    (v : β) (h : k ∉ m.map Prod.fst) :
    (setKey m k v).map Prod.fst = m.map Prod.fst ++ [k] := by
  induction m with
  | nil => simp [setKey]
  | cons p rest ih =>
    simp only [List.map_cons, List.mem_cons] at h
    push_neg at h
    have hp : ¬ p.1 = k := fun he => h.1 he.symm
    simp [setKey, hp, ih h.2]

theorem mem_keys_setKey {β : Type} (m : List (String × β)) (k x : String)
    (v : β) :
    x ∈ (setKey m k v).map Prod.fst ↔ x = k ∨ x ∈ m.map Prod.fst := by
  by_cases h : k ∈ m.map Prod.fst
  · rw [keys_setKey_of_mem v h]
    constructor
    · exact Or.inr
    · rintro (rfl | hx)
      · exact h
      · exact hx
  · rw [keys_setKey_of_not_mem v h]
    simp [List.mem_append, or_comm]

theorem nodup_keys_setKey {β : Type} {m : List (String × β)} (k : String)
    (v : β) (h : (m.map Prod.fst).Nodup) :
    ((setKey m k v).map Prod.fst).Nodup := by
  by_cases hk : k ∈ m.map Prod.fst
  · rwa [keys_setKey_of_mem v hk]
  · rw [keys_setKey_of_not_mem v hk]
    simp [List.nodup_append, h, hk]

theorem mem_setKey_of_ne {β : Type} {m : List (String × β)} {x k : String}
    {w : β} (v : β) (hmem : (x, w) ∈ m) (hne : x ≠ k) :
    (x, w) ∈ setKey m k v := by
  induction m with
  | nil => cases hmem
  | cons p rest ih =>
    rcases List.mem_cons.mp hmem with h | h
    · by_cases hp : p.1 = k
      · exfalso
        apply hne
        rw [← h] at hp
        exact hp
      · simp only [setKey, if_neg hp]
        exact h ▸ List.mem_cons_self p (setKey rest k v)
    · by_cases hp : p.1 = k
      · simp only [setKey, if_pos hp]
        exact List.mem_cons_of_mem _ h
      · simp only [setKey, if_neg hp]
        exact List.mem_cons_of_mem _ (ih h)

theorem mergeLoop_sessions {α : Type} (now : String)
    (obs : List (RawSession α)) :
    ∀ m n u, (mergeLoop now obs m n u).1 = applyAll now obs m := by
  induction obs with
  | nil => intro m n u; rfl
  | cons s restObs ih =>
    intro m n u
    simp only [mergeLoop, applyAll]
    exact ih _ _ _

theorem mergeLoop_counts {α : Type} (now : String)
    (obs : List (RawSession α)) :
    ∀ m n u, (mergeLoop now obs m n u).2.1 + (mergeLoop now obs m n u).2.2 =
      n + u + obs.length := by
  induction obs with
  | nil => intro m n u; simp [mergeLoop]
  | cons s restObs ih =>
    intro m n u
    cases hc : (lookupKey m (computeId s)).isNone with
    | false =>
      simp only [mergeLoop, hc]
      rw [ih]
      simp
      omega
    | true =>
      simp only [mergeLoop, hc]
      rw [ih]
      simp
      omega

theorem mem_keys_applyAll {α : Type} (now : String)
    (obs : List (RawSession α)) :
    ∀ m (x : String), x ∈ (applyAll now obs m).map Prod.fst ↔
      x ∈ m.map Prod.fst ∨ x ∈ obs.map computeId := by
  induction obs with
  | nil => simp [applyAll]
  | cons s restObs ih =>
    intro m x
    simp only [applyAll, List.map_cons, List.mem_cons]
    rw [ih, mem_keys_setKey]
    tauto

theorem mem_applyAll_of_not_incoming {α : Type} (now : String)
    (obs : List (RawSession α)) :
    ∀ m (x : String) (w : StoredSession α),
      (x, w) ∈ m → x ∉ obs.map computeId → (x, w) ∈ applyAll now obs m := by
  induction obs with
  | nil => intro m x w h _; exact h
  | cons s restObs ih =>
    intro m x w hm hx
    simp only [List.map_cons, List.mem_cons] at hx
    push_neg at hx
    exact ih _ _ _ (mem_setKey_of_ne _ hm hx.1) hx.2

/-! ### Claim theorems: merge counting and history preservation -/

/-- C4.  New/updated counting: when record `R`'s identifier is already
present in the existing set and `S`'s is absent, merging `[R, S]` logs
exactly 1 new and 1 updated record, and the logged total equals the number
of distinct record identifiers after the merge. -/
theorem new_updated_counting {α : Type} (existing : RecordSet α)
    (R S : RawSession α) (now : String)
    (hR : computeId R ∈ existing.sessions.map Prod.fst)
    (hS : computeId S ∉ existing.sessions.map Prod.fst)
    (hnd : (existing.sessions.map Prod.fst).Nodup) :
    (sync existing [R, S] now).syncs.getLast? =
      some { timestamp := now, newSessions := 1, updatedSessions := 1,
             totalSessions :=
               ((sync existing [R, S] now).sessions.map
                 Prod.fst).dedup.length } := by
  obtain ⟨v, hv⟩ : ∃ v, lookupKey existing.sessions (computeId R) = some v := by
    cases h : lookupKey existing.sessions (computeId R) with
    | none => exact absurd hR (lookupKey_eq_none_iff.mp h)
    | some v => exact ⟨v, rfl⟩
  have h2 : lookupKey (setKey existing.sessions (computeId R) (store now R))
      (computeId S) = none := by
    rw [lookupKey_eq_none_iff, keys_setKey_of_mem _ hR]
    exact hS
  have hm : mergeLoop now [R, S] existing.sessions 0 0 =
      (setKey (setKey existing.sessions (computeId R) (store now R))
        (computeId S) (store now S), 1, 1) := by
    simp [mergeLoop, hv, h2]
  have hnd2 : ((setKey (setKey existing.sessions (computeId R) (store now R))
      (computeId S) (store now S)).map Prod.fst).Nodup :=
    nodup_keys_setKey _ _ (nodup_keys_setKey _ _ hnd)
  simp only [sync, hm]
  rw [List.getLast?_concat]
  congr 2
  rw [List.dedup_eq_self.mpr hnd2, List.length_map]

/-- Witness for C4: existing set `{r}`, incoming `[R, S]` with `R` present
and `S` fresh. -/
theorem new_updated_counting_witness :
    (sync (⟨[("r", ⟨some "r", none, none, none, (), "Unknown", "T0"⟩)], [],
        none⟩ : RecordSet Unit)
      [⟨some "r", none, none, none, ()⟩, ⟨some "s", none, none, none, ()⟩]
      "T").syncs.getLast? =
      some { timestamp := "T", newSessions := 1, updatedSessions := 1,
             totalSessions :=
               ((sync (⟨[("r", ⟨some "r", none, none, none, (), "Unknown",
                   "T0"⟩)], [], none⟩ : RecordSet Unit)
                 [⟨some "r", none, none, none, ()⟩,
                  ⟨some "s", none, none, none, ()⟩]
                 "T").sessions.map Prod.fst).dedup.length } :=
  new_updated_counting _ _ _ "T" (by decide) (by decide) (by decide)

/-- C7.  Merge never loses history: every existing identifier survives the
merge, every record whose identifier is not among the incoming computed
identifiers is stored unchanged, and the merged identifier count is the
size of the union of existing and incoming identifiers. -/
theorem merge_never_loses_history {α : Type} (existing : RecordSet α)
    (incoming : List (RawSession α)) (now : String) :
    (∀ k, k ∈ existing.sessions.map Prod.fst →
      k ∈ (sync existing incoming now).sessions.map Prod.fst) ∧
    (∀ k v, (k, v) ∈ existing.sessions → k ∉ incoming.map computeId →
      (k, v) ∈ (sync existing incoming now).sessions) ∧
    ((sync existing incoming now).sessions.map Prod.fst).dedup.length =
      (existing.sessions.map Prod.fst ++
        incoming.map computeId).dedup.length := by
  have hs : (sync existing incoming now).sessions =
      applyAll now incoming existing.sessions := by
    simp [sync, mergeLoop_sessions]
  refine ⟨?_, ?_, ?_⟩
  · intro k hk
    rw [hs, mem_keys_applyAll]
    exact Or.inl hk
  · intro k v hv hk
    rw [hs]
    exact mem_applyAll_of_not_incoming now incoming _ _ _ hv hk
  · rw [hs]
    have hfin : ((applyAll now incoming existing.sessions).map
        Prod.fst).toFinset =
        (existing.sessions.map Prod.fst ++
          incoming.map computeId).toFinset := by
      ext x
      simp only [List.mem_toFinset, List.mem_append]
      exact mem_keys_applyAll now incoming _ x
    calc ((applyAll now incoming existing.sessions).map Prod.fst).dedup.length
        = ((applyAll now incoming existing.sessions).map
            Prod.fst).toFinset.card := (List.card_toFinset _).symm
      _ = (existing.sessions.map Prod.fst ++
            incoming.map computeId).toFinset.card := by rw [hfin]
      _ = _ := List.card_toFinset _

/-- Witness for C7: existing record `k` survives a merge of one fresh
session untouched. -/
theorem merge_never_loses_history_witness :
    "k" ∈ ((sync (⟨[("k", ⟨none, none, none, none, (), "Unknown", "T0"⟩)],
        [], none⟩ : RecordSet Unit)
      [⟨some "a", none, none, none, ()⟩] "T").sessions.map Prod.fst) ∧
    ("k", (⟨none, none, none, none, (), "Unknown", "T0"⟩ :
        StoredSession Unit)) ∈
      (sync (⟨[("k", ⟨none, none, none, none, (), "Unknown", "T0"⟩)], [],
          none⟩ : RecordSet Unit)
        [⟨some "a", none, none, none, ()⟩] "T").sessions ∧
    (((sync (⟨[("k", ⟨none, none, none, none, (), "Unknown", "T0"⟩)], [],
          none⟩ : RecordSet Unit)
        [⟨some "a", none, none, none, ()⟩] "T").sessions.map
        Prod.fst).dedup.length =
      ((["k"] : List String) ++
        [⟨some "a", none, none, none, ()⟩].map
          (computeId (α := Unit))).dedup.length) := by
  have h := merge_never_loses_history
    (⟨[("k", ⟨none, none, none, none, (), "Unknown", "T0"⟩)], [], none⟩ :
      RecordSet Unit)
    [⟨some "a", none, none, none, ()⟩] "T"
  exact ⟨h.1 "k" (by decide), h.2.1 "k" _ (by decide) (by decide), h.2.2⟩

/-- C10.  Duplicate identifiers within one batch: the logged new+updated
count is the length of the incoming sequence (counted against the
in-progress map), and when one identifier occurs twice in a batch and is
absent from the existing set, the first occurrence counts as new, the
second as updated, and the second occurrence's data is what ends up
stored. -/
theorem batch_counts_by_occurrence {α : Type} :
    (∀ (existing : RecordSet α) (incoming : List (RawSession α))
      (now : String),
      ∃ e, (sync existing incoming now).syncs.getLast? = some e ∧
        e.newSessions + e.updatedSessions = incoming.length) ∧
    (∀ (existing : RecordSet α) (s1 s2 : RawSession α) (now : String),
      computeId s1 = computeId s2 →
      computeId s1 ∉ existing.sessions.map Prod.fst →
      (sync existing [s1, s2] now).syncs.getLast? =
        some { timestamp := now, newSessions := 1, updatedSessions := 1,
               totalSessions :=
                 (sync existing [s1, s2] now).sessions.length } ∧
      lookupKey (sync existing [s1, s2] now).sessions (computeId s2) =
        some (store now s2)) := by
  constructor
  · intro existing incoming now
    refine ⟨{ timestamp := now,
              newSessions := (mergeLoop now incoming existing.sessions 0 0).2.1,
              updatedSessions :=
                (mergeLoop now incoming existing.sessions 0 0).2.2,
              totalSessions :=
                (mergeLoop now incoming existing.sessions 0 0).1.length },
        ?_, ?_⟩
    · simp [sync, List.getLast?_concat]
    · simpa using mergeLoop_counts now incoming existing.sessions 0 0
  · intro existing s1 s2 now h12 hnotin
    have h1 : lookupKey existing.sessions (computeId s1) = none :=
      lookupKey_eq_none_iff.mpr hnotin
    have h2 : lookupKey (setKey existing.sessions (computeId s1)
        (store now s1)) (computeId s2) = some (store now s1) := by
      rw [← h12]
      exact lookupKey_setKey_self _ _ _
    have hm : mergeLoop now [s1, s2] existing.sessions 0 0 =
        (setKey (setKey existing.sessions (computeId s1) (store now s1))
          (computeId s2) (store now s2), 1, 1) := by
      simp [mergeLoop, h1, h2]
    constructor
    · simp only [sync, hm]
      rw [List.getLast?_concat]
    · simp only [sync, hm]
      exact lookupKey_setKey_self _ _ _

/-- Witness for C10: a singleton batch logs new+updated = 1; a batch with
the same fresh identifier twice logs 1 new and 1 updated and stores the
second occurrence's data. -/
theorem batch_counts_by_occurrence_witness :
    (∃ e, (sync (α := Unit) emptyRecordSet
        [⟨some "a", none, none, none, ()⟩] "T").syncs.getLast? = some e ∧
      e.newSessions + e.updatedSessions = 1) ∧
    ((sync (α := Unit) emptyRecordSet
        [⟨some "a", none, none, none, ()⟩,
         ⟨some "a", none, none, some "T2", ()⟩] "T").syncs.getLast? =
      some { timestamp := "T", newSessions := 1, updatedSessions := 1,
             totalSessions :=
               (sync (α := Unit) emptyRecordSet
                 [⟨some "a", none, none, none, ()⟩,
                  ⟨some "a", none, none, some "T2", ()⟩] "T").sessions.length } ∧
      lookupKey (sync (α := Unit) emptyRecordSet
          [⟨some "a", none, none, none, ()⟩,
           ⟨some "a", none, none, some "T2", ()⟩] "T").sessions
        (computeId (⟨some "a", none, none, some "T2", ()⟩ :
          RawSession Unit)) =
      some (store "T" ⟨some "a", none, none, some "T2", ()⟩)) :=
  ⟨batch_counts_by_occurrence.1 emptyRecordSet _ "T",
   batch_counts_by_occurrence.2 emptyRecordSet _ _ "T" (by decide)
     (by decide)⟩

/-! ### Lemmas for idempotent re-merge (C5) -/

theorem store_retime {α : Type} (t1 t2 : String) (s : RawSession α) :
    store t2 s = retime (store t1 s) t2 := rfl

theorem retimeMap_setKey {α : Type} (m : List (String × StoredSession α))
    (k : String) (v : StoredSession α) (t : String) :
    retimeMap (setKey m k v) t = setKey (retimeMap m t) k (retime v t) := by
  induction m with
  | nil => simp [setKey, retimeMap]
  | cons p rest ih =>
    by_cases hp : p.1 = k
    · simp [setKey, retimeMap, hp]
    · simp only [retimeMap] at ih ⊢
      simp [setKey, hp, ih]

theorem applyAll_retime {α : Type} (t1 t2 : String)
    (obs : List (RawSession α)) :
    ∀ m, retimeMap (applyAll t1 obs m) t2 = applyAll t2 obs (retimeMap m t2) := by
  induction obs with
  | nil => intro m; rfl
  | cons s restObs ih =>
    intro m
    simp only [applyAll]
    rw [ih, retimeMap_setKey, ← store_retime]

theorem setKey_setKey_same {β : Type} (m : List (String × β)) (k : String)
    (v w : β) : setKey (setKey m k v) k w = setKey m k w := by
  induction m with
  | nil => simp [setKey]
  | cons p rest ih =>
    by_cases hp : p.1 = k
    · simp [setKey, hp]
    · simp [setKey, hp, ih]

theorem setKey_comm_of_mem {β : Type} {m : List (String × β)} {k q : String}
    (v w : β) (hne : k ≠ q) (hk : k ∈ m.map Prod.fst) :
    setKey (setKey m q w) k v = setKey (setKey m k v) q w := by
  induction m with
  | nil => simp at hk
  | cons p rest ih =>
    simp only [List.map_cons, List.mem_cons] at hk
    by_cases hpq : p.1 = q
    · have hpk : ¬ p.1 = k := fun h => hne (h.symm.trans hpq)
      have hqk : ¬ q = k := fun h => hne h.symm
      rcases hk with hk | hk
      · exact absurd hk.symm hpk
      · simp [setKey, hpq, hpk, hqk, hne]
    · by_cases hpk : p.1 = k
      · simp [setKey, hpq, hpk, hne]
      · rcases hk with hk | hk
        · exact absurd hk.symm hpk
        · simp [setKey, hpq, hpk, ih hk]

theorem mem_keys_setKey_self {β : Type} (m : List (String × β)) (k : String)
    (v : β) : k ∈ (setKey m k v).map Prod.fst :=
  (mem_keys_setKey m k k v).mpr (Or.inl rfl)

theorem setKey_applyAll_comm {α : Type} (t : String)
    (obs : List (RawSession α)) :
    ∀ m (i : String) (v : StoredSession α), i ∉ obs.map computeId →
      i ∈ m.map Prod.fst →
      setKey (applyAll t obs m) i v = applyAll t obs (setKey m i v) := by
  induction obs with
  | nil => intro m i v _ _; rfl
  | cons s restObs ih =>
    intro m i v hni hk
    simp only [List.map_cons, List.mem_cons] at hni
    push_neg at hni
    simp only [applyAll]
    rw [ih _ i v hni.2 ((mem_keys_setKey _ _ _ _).mpr (Or.inr hk)),
      setKey_comm_of_mem _ _ hni.1 hk]

theorem nodup_keys_applyAll {α : Type} (t : String)
    (obs : List (RawSession α)) :
    ∀ m, (m.map Prod.fst).Nodup →
      ((applyAll t obs m).map Prod.fst).Nodup := by
  induction obs with
  | nil => intro m h; exact h
  | cons s restObs ih =>
    intro m h
    exact ih _ (nodup_keys_setKey _ _ h)

theorem mem_setKey_cases {β : Type} {m : List (String × β)} {k : String}
    {v : β} {kv : String × β} (h : kv ∈ setKey m k v) :
    kv ∈ m ∨ kv = (k, v) := by
  induction m with
  | nil =>
    simp only [setKey] at h
    rcases List.mem_singleton.mp h with h
    exact Or.inr h
  | cons p rest ih =>
    by_cases hp : p.1 = k
    · simp only [setKey, if_pos hp] at h
      rcases List.mem_cons.mp h with h | h
      · exact Or.inr h
      · exact Or.inl (List.mem_cons_of_mem _ h)
    · simp only [setKey, if_neg hp] at h
      rcases List.mem_cons.mp h with h | h
      · exact Or.inl (h ▸ List.mem_cons_self _ _)
      · rcases ih h with h | h
        · exact Or.inl (List.mem_cons_of_mem _ h)
        · exact Or.inr h

theorem applyAll_syncedAt {α : Type} (t : String)
    (obs : List (RawSession α)) :
    ∀ m, (∀ kv ∈ m, (Prod.snd kv).syncedAt = t) →
      ∀ kv ∈ applyAll t obs m, (Prod.snd kv).syncedAt = t := by
  induction obs with
  | nil => intro m h; exact h
  | cons s restObs ih =>
    intro m h
    refine ih _ ?_
    intro kv hkv
    rcases mem_setKey_cases hkv with hkv | hkv
    · exact h kv hkv
    · rw [hkv]
      rfl

theorem agreeOff_refl {β : Type} (S : String → Prop)
    (M : List (String × β)) : AgreeOff S M M :=
  List.forall₂_same.mpr fun _ _ => ⟨rfl, fun _ => rfl⟩

theorem agreeOff_eq {β : Type} {S : String → Prop} {M N : List (String × β)}
    (h : AgreeOff S M N) (hS : ∀ x, ¬ S x) : M = N := by
  induction h with
  | nil => rfl
  | @cons p q M2 N2 hpq hrest ih =>
    have hp : p = q := Prod.ext_iff.mpr ⟨hpq.1, hpq.2 (hS p.1)⟩
    rw [hp, ih]

theorem agreeOff_of_imp {β : Type} {S T : String → Prop}
    {M N : List (String × β)} (h : AgreeOff S M N)
    (himp : ∀ x, x ∈ M.map Prod.fst → ¬ T x → ¬ S x) : AgreeOff T M N := by
  induction h with
  | nil => exact List.Forall₂.nil
  | @cons p q M2 N2 hpq hrest ih =>
    refine List.Forall₂.cons
      ⟨hpq.1, fun hT => hpq.2 (himp p.1 (by simp) hT)⟩ (ih ?_)
    intro x hx hT
    exact himp x (by simp [hx]) hT

theorem agreeOff_setKey {β : Type} {S : String → Prop}
    {M N : List (String × β)} (k : String) (v : β) (h : AgreeOff S M N)
    (hnd : (M.map Prod.fst).Nodup) :
    AgreeOff (fun x => S x ∧ x ≠ k) (setKey M k v) (setKey N k v) := by
  induction h with
  | nil =>
    simp only [setKey]
    exact List.Forall₂.cons ⟨rfl, fun _ => rfl⟩ List.Forall₂.nil
  | @cons p q M2 N2 hpq hrest ih =>
    simp only [List.map_cons, List.nodup_cons] at hnd
    by_cases hpk : p.1 = k
    · have hqk : q.1 = k := by rw [← hpq.1]; exact hpk
      simp only [setKey, if_pos hpk, if_pos hqk]
      refine List.Forall₂.cons ⟨rfl, fun _ => rfl⟩ ?_
      refine agreeOff_of_imp (T := fun x => S x ∧ x ≠ k) hrest ?_
      intro x hx hT hSx
      exact hT ⟨hSx, fun hxk => hnd.1 (by rw [hpk, ← hxk]; exact hx)⟩
    · have hqk : ¬ q.1 = k := by rw [← hpq.1]; exact hpk
      simp only [setKey, if_neg hpk, if_neg hqk]
      exact List.Forall₂.cons
        ⟨hpq.1, fun hT => hpq.2 fun hS => hT ⟨hS, hpk⟩⟩ (ih hnd.2)

theorem agreeOff_setKey_pair {β : Type} (M : List (String × β)) (k : String)
    (v w : β) : AgreeOff (fun x => x = k) (setKey M k v) (setKey M k w) := by
  induction M with
  | nil =>
    simp only [setKey]
    exact List.Forall₂.cons ⟨rfl, fun hn => absurd rfl hn⟩ List.Forall₂.nil
  | cons p rest ih =>
    by_cases hp : p.1 = k
    · simp only [setKey, if_pos hp]
      exact List.Forall₂.cons ⟨rfl, fun hn => absurd rfl hn⟩
        (agreeOff_refl (fun x => x = k) rest)
    · simp only [setKey, if_neg hp]
      exact List.Forall₂.cons ⟨rfl, fun _ => rfl⟩ ih

theorem agreeOff_setKey_self {β : Type} {M : List (String × β)} {k : String}
    (v : β) (hk : k ∈ M.map Prod.fst) :
    AgreeOff (fun x => x = k) (setKey M k v) M := by
  induction M with
  | nil => simp at hk
  | cons p rest ih =>
    simp only [List.map_cons, List.mem_cons] at hk
    by_cases hp : p.1 = k
    · simp only [setKey, if_pos hp]
      exact List.Forall₂.cons ⟨hp.symm, fun hn => absurd rfl hn⟩
        (agreeOff_refl (fun x => x = k) rest)
    · rcases hk with hk | hk
      · exact absurd hk.symm hp
      · simp only [setKey, if_neg hp]
        exact List.Forall₂.cons ⟨rfl, fun _ => rfl⟩ (ih hk)

theorem agreeOff_applyAll_eq {α : Type} (t : String)
    (obs : List (RawSession α)) :
    ∀ (S : String → Prop) (M N : List (String × StoredSession α)),
      AgreeOff S M N → (M.map Prod.fst).Nodup →
      (∀ x, S x → x ∈ obs.map computeId) →
      applyAll t obs M = applyAll t obs N := by
  induction obs with
  | nil =>
    intro S M N h _ hsub
    exact agreeOff_eq h fun x hS => absurd (hsub x hS) (List.not_mem_nil x)
  | cons s restObs ih =>
    intro S M N h hnd hsub
    simp only [applyAll]
    refine ih _ _ _ (agreeOff_setKey (computeId s) (store t s) h hnd)
      (nodup_keys_setKey _ _ hnd) ?_
    intro x hx
    have hmem := hsub x hx.1
    simp only [List.map_cons, List.mem_cons] at hmem
    rcases hmem with hmem | hmem
    · exact absurd hmem hx.2
    · exact hmem

theorem applyAll_twice {α : Type} (t1 t2 : String)
    (obs : List (RawSession α)) :
    ∀ M, (M.map Prod.fst).Nodup →
      applyAll t2 obs (applyAll t1 obs M) = applyAll t2 obs M := by
  induction obs with
  | nil => intro M _; rfl
  | cons s restObs ih =>
    intro M hnd
    by_cases hi : computeId s ∈ restObs.map computeId
    · have hAB : applyAll t1 restObs (setKey M (computeId s) (store t1 s)) =
          applyAll t1 restObs (setKey M (computeId s) (store t2 s)) :=
        agreeOff_applyAll_eq t1 restObs _ _ _
          (agreeOff_setKey_pair M (computeId s) (store t1 s) (store t2 s))
          (nodup_keys_setKey _ _ hnd)
          (fun x hx => by rw [hx]; exact hi)
      have hndB : ((applyAll t1 restObs (setKey M (computeId s)
          (store t2 s))).map Prod.fst).Nodup :=
        nodup_keys_applyAll t1 restObs _ (nodup_keys_setKey _ _ hnd)
      have hkB : computeId s ∈ (applyAll t1 restObs (setKey M (computeId s)
          (store t2 s))).map Prod.fst :=
        (mem_keys_applyAll t1 restObs _ _).mpr
          (Or.inl (mem_keys_setKey_self M _ _))
      have h2 : applyAll t2 restObs (setKey (applyAll t1 restObs
          (setKey M (computeId s) (store t2 s))) (computeId s)
            (store t2 s)) =
          applyAll t2 restObs (applyAll t1 restObs
            (setKey M (computeId s) (store t2 s))) :=
        agreeOff_applyAll_eq t2 restObs _ _ _
          (agreeOff_setKey_self (store t2 s) hkB)
          (nodup_keys_setKey _ _ hndB)
          (fun x hx => by rw [hx]; exact hi)
      simp only [applyAll]
      rw [hAB, h2, ih _ (nodup_keys_setKey _ _ hnd)]
    · simp only [applyAll]
      rw [setKey_applyAll_comm t1 restObs _ _ _ hi
        (mem_keys_setKey_self M _ _), setKey_setKey_same,
        ih _ (nodup_keys_setKey _ _ hnd)]

/-- C5.  Idempotent merge on content: merging the same observation sequence
a second time (into the set produced by the first merge from empty) yields
the same stored sessions in the same order with every field equal except
`syncedAt`, which is restamped to the second merge time; after the first
merge every stored `syncedAt` is the first merge time, and `lastSync` is
the respective merge time of each merge. -/
theorem merge_idempotent_on_content {α : Type} (obs : List (RawSession α))
    (t1 t2 : String) :
    (sync (sync (emptyRecordSet (α := α)) obs t1) obs t2).sessions =
      retimeMap ((sync (emptyRecordSet (α := α)) obs t1).sessions) t2 ∧
    ((sync (emptyRecordSet (α := α)) obs t1).sessions.all
      fun kv => kv.2.syncedAt == t1) = true ∧
    (sync (emptyRecordSet (α := α)) obs t1).lastSync = some t1 ∧
    (sync (sync (emptyRecordSet (α := α)) obs t1) obs t2).lastSync =
      some t2 := by
  have hs1 : (sync (emptyRecordSet (α := α)) obs t1).sessions =
      applyAll t1 obs [] := by
    simp [sync, mergeLoop_sessions, emptyRecordSet]
  have hs2 : (sync (sync (emptyRecordSet (α := α)) obs t1) obs t2).sessions =
      applyAll t2 obs (applyAll t1 obs []) := by
    simp [sync, mergeLoop_sessions, emptyRecordSet]
  refine ⟨?_, ?_, ?_, ?_⟩
  · rw [hs2, hs1, applyAll_twice t1 t2 obs [] (by simp),
      applyAll_retime t1 t2 obs]
    rfl
  · rw [hs1, List.all_eq_true]
    intro kv hkv
    exact beq_iff_eq.mpr (applyAll_syncedAt t1 obs []
      (fun kv h => absurd h (List.not_mem_nil kv)) kv hkv)
  · simp [sync]
  · simp [sync]

end LoopTrack
